import Mathlib

/-!
Shallow embedding of `pw_presubmit/tools.py`: the path-filter model,
check wrapping, the sequential check-execution loop, outcome
classification, result aggregation and log-name sanitization.
-/

namespace PwPresubmit

/-- Regex abstract syntax, modelling the compiled patterns produced by
`re.compile` for the `exclude` entries of `_PathFilter`.  Pattern strings
are represented by their parsed syntax trees; equal pattern strings parse
to equal trees, so structural equality of `Regex` values models equality
of the stored pattern strings. -/
inductive Regex : Type where
  | zero : Regex
  | epsilon : Regex
  | char : Char → Regex
  | anyChar : Regex
  | plus : Regex → Regex → Regex
  | comp : Regex → Regex → Regex
  | star : Regex → Regex
  deriving DecidableEq, Repr

/-- Whether a regex matches the empty string. -/
def Regex.matchEpsilon : Regex → Bool
  | .zero => false
  | .epsilon => true
  | .char _ => false
  | .anyChar => false
  | .plus p q => p.matchEpsilon || q.matchEpsilon
  | .comp p q => p.matchEpsilon && q.matchEpsilon
  | .star _ => true

/-- Brzozowski derivative of a regex by one character. -/
def Regex.deriv : Regex → Char → Regex
  | .zero, _ => .zero
  | .epsilon, _ => .zero
  | .char c, a => if a = c then .epsilon else .zero
  | .anyChar, _ => .epsilon
  | .plus p q, a => .plus (p.deriv a) (q.deriv a)
  | .comp p q, a =>
      if p.matchEpsilon then .plus (.comp (p.deriv a) q) (q.deriv a)
      else .comp (p.deriv a) q
  | .star p, a => .comp (p.deriv a) (.star p)

/-- Derivative-based matching of a whole character list.  This models
Python's `re.Pattern.fullmatch`: the entire string must match. -/
def Regex.rmatch : Regex → List Char → Bool
  | p, [] => p.matchEpsilon
  | p, a :: as => (p.deriv a).rmatch as

/-- Full-string match on a `String`, as used by
`exp.fullmatch(str(path))` in `_map_checks_to_paths`. -/
def Regex.fullmatch (p : Regex) (s : String) : Bool :=
  p.rmatch s.data

/-- Exact suffix test, modelling Python's `str.endswith`. -/
def strEndsWith (s e : String) : Bool :=
  decide (e.data <:+ s.data)

/-- The `_PathFilter` named tuple: a suffix allow-list and a list of
exclude patterns.  Defaults mirror the source:
`endswith: Tuple[str, ...] = ('',)` and `exclude: Tuple[str, ...] = ()`. -/
structure PathFilter : Type where
  endswith : List String := [""]
  exclude : List Regex := []
  deriving DecidableEq, Repr

/-- The default `_PathFilter()`. -/
def defaultFilter : PathFilter := {}

/-- The path predicate computed inside `_map_checks_to_paths`:
`any(str(path).endswith(end) for end in filt.endswith) and
 not any(exp.fullmatch(str(path)) for exp in exclude)`. -/
def pathMatches (filt : PathFilter) (path : String) : Bool :=
  (filt.endswith.any fun e => strEndsWith path e) &&
    !(filt.exclude.any fun exp => exp.fullmatch path)

/-- The `filtered_paths` tuple computed once per filter in
`_map_checks_to_paths`. -/
def resolve (filt : PathFilter) (paths : List String) : List String :=
  paths.filter (pathMatches filt)

/-- What a check implementation does when invoked with a context, the four
behaviours distinguished by `_Check._call_function`: return normally, raise
`PresubmitFailure(description, path)`, raise any other exception (carrying
its diagnostic text), or a `KeyboardInterrupt` arriving during the call. -/
inductive Raised : Type where
  | returns : Raised
  | presubmitFailure : String → Option String → Raised
  | otherError : String → Raised
  | interrupt : Raised
  deriving DecidableEq, Repr

/-- The `_Result` enumeration: `PASS`, `FAIL`, `CANCEL`. -/
inductive Result : Type where
  | PASS : Result
  | FAIL : Result
  | CANCEL : Result
  deriving DecidableEq, Repr

/-- The string form of `PresubmitFailure(description, path)`:
`f'{path}: {description}' if path else description`.  A `path` of `none`
models Python's `None`, and an empty string is falsy in Python, so both
yield the bare description. -/
def presubmitFailureStr (description : String) (path : Option String) : String :=
  match path with
  | some p => if p = "" then description else p ++ ": " ++ description
  | none => description

/-- Classification of one check invocation by `_Check._call_function`,
returning the `_Result` together with the warning/error log entries the
handler emits. -/
def callFunction (raised : Raised) (checkName : String) : Result × List String :=
  match raised with
  | .returns => (.PASS, [])
  | .presubmitFailure description path =>
      let s := presubmitFailureStr description path
      (.FAIL, if s = "" then [] else [s])
  | .otherError detail =>
      (.FAIL, ["Presubmit check " ++ checkName ++ " failed!\n" ++ detail])
  | .interrupt => (.CANCEL, [])

/-- The `_Check` wrapper: a named check with its `_PathFilter` and
`always_run` flag.  `paramCount` is the number of parameters the wrapped
implementation accepts (Python calls it with exactly one argument, the
context) and `raised` is the implementation's behaviour when that call
actually enters the implementation. -/
structure Check : Type where
  name : String
  filter : PathFilter := {}
  alwaysRun : Bool := true
  paramCount : Nat := 1
  raised : Raised := .returns
  deriving DecidableEq, Repr

/-- What calling `self._check(ctx)` raises: an implementation that does not
accept exactly one argument raises a `TypeError` at the call itself (before
its body runs); otherwise the implementation's own behaviour applies. -/
def effectiveRaised (c : Check) : Raised :=
  if c.paramCount = 1 then c.raised
  else .otherError ("TypeError: " ++ c.name ++ " takes " ++
    toString c.paramCount ++ " positional arguments but 1 was given")

/-- The `_Result` of running one check, via `_Check.run` and
`_Check._call_function`. -/
def checkResult (c : Check) : Result :=
  (callFunction (effectiveRaised c) c.name).fst

/-- An element of the program list handed to `Presubmit.run`: either an
already-wrapped `_Check` or a plain callable (a name, a parameter count and
a behaviour). -/
inductive ProgramEntry : Type where
  | check : Check → ProgramEntry
  | plainCallable : String → Nat → Raised → ProgramEntry
  deriving DecidableEq, Repr

/-- The wrapping step of `_apply_filters`:
`c if isinstance(c, _Check) else _Check(c)`.  A plain callable is wrapped
with the `_Check.__init__` defaults `path_filter=_PathFilter()` and
`always_run=True`. -/
def wrap : ProgramEntry → Check
  | .check c => c
  | .plainCallable name paramCount raised =>
      { name := name, filter := {}, alwaysRun := true,
        paramCount := paramCount, raised := raised }

/-- The distinct filters of a check list in first-appearance order: the key
set of the `filter_to_checks` dict built by `_apply_filters` (Python dicts
preserve insertion order). -/
def distinctFilters (checks : List Check) : List PathFilter :=
  checks.foldl (fun acc c => if c.filter ∈ acc then acc else acc ++ [c.filter]) []

/-- The per-filter resolution table of `_map_checks_to_paths`: each distinct
filter is resolved against the path universe exactly once. -/
def filterTable (checks : List Check) (paths : List String) :
    List (PathFilter × List String) :=
  (distinctFilters checks).map fun filt => (filt, resolve filt paths)

/-- The `_apply_filters` pipeline: wrap every program entry, group checks by
filter, resolve each distinct filter once (`_map_checks_to_paths`), then keep,
in registration order, each check whose resolved subset is non-empty or whose
`always_run` flag is set, paired with that subset. -/
def applyFilters (program : List ProgramEntry) (paths : List String) :
    List (Check × List String) :=
  let checks := program.map wrap
  let table := filterTable checks paths
  checks.filterMap fun c =>
    match table.lookup c.filter with
    | some filteredPaths =>
        if !filteredPaths.isEmpty || c.alwaysRun then some (c, filteredPaths)
        else none
    | none => none

/-- Modelled from the spec: per-check filtering with no grouping, resolving
each check's filter independently ("resolving each check's filter
independently" in the grouping-equivalence claim). -/
def applyFiltersDirect (program : List ProgramEntry) (paths : List String) :
    List (Check × List String) :=
  (program.map wrap).filterMap fun c =>
    let filteredPaths := resolve c.filter paths
    if !filteredPaths.isEmpty || c.alwaysRun then some (c, filteredPaths)
    else none

/-- The loop of `Presubmit._execute_checks`, with an added trace recording
the names of the checks actually invoked, in order.  `PASS` increments
`passed`; `CANCEL` breaks at once without counting; `FAIL` increments
`failed` and breaks unless `keep_going`. -/
def executeChecksAux (keepGoing : Bool) (passed failed : Nat)
    (ran : List String) : List (Check × List String) → Nat × Nat × List String
  | [] => (passed, failed, ran)
  | (c, _) :: rest =>
    match checkResult c with
    | .PASS => executeChecksAux keepGoing (passed + 1) failed (ran ++ [c.name]) rest
    | .CANCEL => (passed, failed, ran ++ [c.name])
    | .FAIL =>
        if keepGoing then
          executeChecksAux keepGoing passed (failed + 1) (ran ++ [c.name]) rest
        else (passed, failed + 1, ran ++ [c.name])

/-- Result of one `Presubmit._execute_checks` run: the counts it returns and
the invocation trace. -/
structure ExecOutcome : Type where
  passed : Nat
  failed : Nat
  skipped : Nat
  ran : List String
  deriving DecidableEq, Repr

/-- `Presubmit._execute_checks`: run the program and return
`(passed, failed, len(program) - passed - failed)`. -/
def executeChecks (program : List (Check × List String)) (keepGoing : Bool) :
    ExecOutcome :=
  let out := executeChecksAux keepGoing 0 0 [] program
  { passed := out.1, failed := out.2.1,
    skipped := program.length - out.1 - out.2.1, ran := out.2.2 }

/-- The overall verdict of `Presubmit.run`: `not failed and not skipped`. -/
def execSuccess (o : ExecOutcome) : Bool :=
  o.failed == 0 && o.skipped == 0

/-- `Presubmit.run` without the reporting: filter the program, execute it,
and report success iff nothing failed and nothing was skipped. -/
def runChecks (program : List ProgramEntry) (paths : List String)
    (keepGoing : Bool) : ExecOutcome :=
  executeChecks (applyFilters program paths) keepGoing

/-- The `filter_paths` decorator: validates at construction time that the
implementation accepts exactly one argument, and on success builds the
`_Check` with the given filter and `always_run` flag. -/
def filterPathsDecorator (endswith : List String) (exclude : List Regex)
    (alwaysRun : Bool) (name : String) (paramCount : Nat) (raised : Raised) :
    Except String Check :=
  if paramCount ≠ 1 then
    .error ("Functions wrapped with @filter_paths must take exactly one " ++
      "argument: " ++ name ++ " takes " ++ toString paramCount ++ ".")
  else
    .ok { name := name, filter := { endswith := endswith, exclude := exclude },
          alwaysRun := alwaysRun, paramCount := paramCount, raised := raised }

/-- The substitution `re.sub(r'[\W_]+', '_', name)` of `Presubmit._context`:
replace every maximal run of characters matching `[\W_]` — i.e. every
character that is not alphanumeric, the underscore included — by a single
underscore.  `inRun` records whether the previous character was part of such
a run (so the run's replacement underscore has already been emitted).
Alphanumeric is modelled as ASCII alphanumeric. -/
def sanitizeAux (inRun : Bool) : List Char → List Char
  | [] => []
  | c :: rest =>
    if c.isAlphanum then c :: sanitizeAux false rest
    else if inRun then sanitizeAux inRun rest
    else '_' :: sanitizeAux true rest

/-- Lower-casing of one character, modelling `str.lower` on ASCII. -/
def asciiLower (c : Char) : Char :=
  if 'A' ≤ c ∧ c ≤ 'Z' then Char.ofNat (c.toNat + 32) else c

/-- The sanitized log-directory name of `Presubmit._context`:
`re.sub(r'[\W_]+', '_', name).lower()`. -/
def sanitizedName (name : String) : String :=
  String.mk ((sanitizeAux false name.data).map asciiLower)

/-- The per-check log file location used by `Presubmit._context`:
`output_directory / sanitized_name / 'step.log'`. -/
def stepLogPath (outputDirectory name : String) : String :=
  outputDirectory ++ "/" ++ sanitizedName name ++ "/step.log"

/-- Modelled from the spec: the sanitization rule as the spec words it —
collapse every maximal run of characters that are neither alphanumeric nor
underscore into a single underscore (so underscores are kept verbatim). -/
def specSanitizeAux (inRun : Bool) : List Char → List Char
  | [] => []
  | c :: rest =>
    if c.isAlphanum || c = '_' then c :: specSanitizeAux false rest
    else if inRun then specSanitizeAux inRun rest
    else '_' :: specSanitizeAux true rest

/-- Modelled from the spec: sanitized name per the spec's collapse rule,
then lower-cased. -/
def specSanitizedName (name : String) : String :=
  String.mk ((specSanitizeAux false name.data).map asciiLower)

/-- Detects two adjacent underscores anywhere in a character list. -/
def hasDoubleUnderscore : List Char → Bool
  | [] => false
  | [_] => false
  | a :: b :: rest => (a = '_' && b = '_') || hasDoubleUnderscore (b :: rest)

/-- Concrete passing check `A` for the fail-fast and keep-going scenarios. -/
def checkA : Check := { name := "A" }

/-- Concrete failing check `B` (raises `PresubmitFailure`). -/
def checkB : Check := { name := "B", raised := .presubmitFailure "boom" none }

/-- Concrete passing check `C`. -/
def checkC : Check := { name := "C" }

/-- Concrete check `K` during which a `KeyboardInterrupt` arrives. -/
def checkK : Check := { name := "K", raised := .interrupt }

/-- The program `[A(pass), B(fail), C(pass)]` of the fail-fast and
keep-going scenarios, with empty path subsets. -/
def progABC : List (Check × List String) := [(checkA, []), (checkB, []), (checkC, [])]

end PwPresubmit

namespace PwPresubmit

/-! Helper lemmas about the execution loop. -/

/-- Counts produced by `executeChecksAux` only grow, and grow by at most the
length of the remaining program. -/
theorem aux_bounds (kg : Bool) :
    ∀ (l : List (Check × List String)) (p f : Nat) (ran : List String),
      ∃ p' f' ran', executeChecksAux kg p f ran l = (p', f', ran') ∧
        p ≤ p' ∧ f ≤ f' ∧ p' + f' ≤ p + f + l.length := by
  intro l
  induction l with
  | nil =>
    intro p f ran
    exact ⟨p, f, ran, by simp [executeChecksAux], le_refl _, le_refl _, by omega⟩
  | cons hd tl ih =>
    intro p f ran
    obtain ⟨c, ps⟩ := hd
    cases h : checkResult c with
    | PASS =>
      obtain ⟨p', f', ran', heq, h1, h2, h3⟩ := ih (p + 1) f (ran ++ [c.name])
      exact ⟨p', f', ran', by simp [executeChecksAux, h, heq], by omega, h2,
        by simp only [List.length_cons]; omega⟩
    | CANCEL =>
      exact ⟨p, f, ran ++ [c.name], by simp [executeChecksAux, h], le_refl _,
        le_refl _, by simp only [List.length_cons]; omega⟩
    | FAIL =>
      cases kg with
      | true =>
        obtain ⟨p', f', ran', heq, h1, h2, h3⟩ := ih p (f + 1) (ran ++ [c.name])
        exact ⟨p', f', ran', by simp [executeChecksAux, h, heq], h1, by omega,
          by simp only [List.length_cons]; omega⟩
      | false =>
        exact ⟨p, f + 1, ran ++ [c.name], by simp [executeChecksAux, h],
          le_refl _, by omega, by simp only [List.length_cons]; omega⟩

/-- Running the loop over a prefix of passing checks followed by a cancelled
check counts every prefix check as passed, counts the cancelled check as
nothing, and never reaches the remainder. -/
theorem aux_pass_prefix (kg : Bool) (c : Check) (ps : List String)
    (rest : List (Check × List String)) (hc : checkResult c = .CANCEL) :
    ∀ (pre : List (Check × List String)) (p f : Nat) (ran : List String),
      (∀ d ∈ pre, checkResult d.1 = .PASS) →
      executeChecksAux kg p f ran (pre ++ (c, ps) :: rest) =
        (p + pre.length, f, ran ++ pre.map (fun d => d.1.name) ++ [c.name]) := by
  intro pre
  induction pre with
  | nil =>
    intro p f ran _
    simp [executeChecksAux, hc]
  | cons hd tl ih =>
    intro p f ran hpass
    obtain ⟨d, dps⟩ := hd
    have hd1 : checkResult d = .PASS := hpass (d, dps) (List.mem_cons_self _ _)
    have htl : ∀ e ∈ tl, checkResult e.1 = .PASS := fun e he =>
      hpass e (List.mem_cons_of_mem _ he)
    simp only [List.cons_append, executeChecksAux, hd1, List.append_eq]
    rw [ih (p + 1) f (ran ++ [d.name]) htl]
    simp only [List.length_cons, List.map_cons, Prod.mk.injEq]
    exact ⟨by omega, trivial, by simp⟩

/-! Helper lemmas about filter resolution and grouping. -/

/-- Accumulator membership is preserved by the distinct-filter fold. -/
theorem foldl_filters_mono (l : List Check) :
    ∀ (acc : List PathFilter) (x : PathFilter), x ∈ acc →
      x ∈ l.foldl (fun acc c => if c.filter ∈ acc then acc else acc ++ [c.filter]) acc := by
  induction l with
  | nil => intro acc x hx; simpa using hx
  | cons c tl ih =>
    intro acc x hx
    simp only [List.foldl_cons]
    apply ih
    by_cases h : c.filter ∈ acc <;> simp [h, hx]

/-- The filter of every listed check appears in the distinct-filter fold. -/
theorem mem_foldl_filters (c : Check) :
    ∀ (l : List Check) (acc : List PathFilter), c ∈ l →
      c.filter ∈ l.foldl (fun acc c => if c.filter ∈ acc then acc else acc ++ [c.filter]) acc := by
  intro l
  induction l with
  | nil => intro acc h; cases h
  | cons hd tl ih =>
    intro acc h
    simp only [List.foldl_cons]
    rcases List.mem_cons.mp h with heq | hmem
    · subst heq
      apply foldl_filters_mono
      by_cases hf : c.filter ∈ acc <;> simp [hf]
    · exact ih _ hmem

/-- The filter of every listed check is among the distinct filters. -/
theorem mem_distinctFilters (l : List Check) (c : Check) (hc : c ∈ l) :
    c.filter ∈ distinctFilters l :=
  mem_foldl_filters c l [] hc

/-- Looking up a key in an association list built by pairing each key with a
function of it returns that function of the key. -/
theorem lookup_map_pair (g : PathFilter → List String) :
    ∀ (fs : List PathFilter) (f : PathFilter), f ∈ fs →
      (fs.map fun x => (x, g x)).lookup f = some (g f) := by
  intro fs
  induction fs with
  | nil => intro f h; cases h
  | cons x xs ih =>
    intro f h
    simp only [List.map_cons, List.lookup]
    by_cases hfx : f = x
    · subst hfx; simp
    · have hb : (f == x) = false := by simp [hfx]
      rw [hb]
      exact ih f (by
        rcases List.mem_cons.mp h with h1 | h1
        · exact absurd h1 hfx
        · exact h1)

/-- Group-then-lookup filtering coincides with independent per-check
filtering: the grouping in `_apply_filters` is unobservable. -/
theorem applyFilters_eq_direct (program : List ProgramEntry) (paths : List String) :
    applyFilters program paths = applyFiltersDirect program paths := by
  unfold applyFilters applyFiltersDirect
  apply List.filterMap_congr
  intro c hc
  have h1 : c.filter ∈ distinctFilters (program.map wrap) :=
    mem_distinctFilters _ _ hc
  have h2 : (filterTable (program.map wrap) paths).lookup c.filter =
      some (resolve c.filter paths) := by
    unfold filterTable; exact lookup_map_pair _ _ _ h1
  rw [h2]

/-- Unfolding of the non-empty-or-always-run keep condition. -/
theorem isEmpty_or_always (fp : List String) (b : Bool) :
    (!fp.isEmpty || b) = true ↔ fp ≠ [] ∨ b = true := by
  cases fp <;> cases b <;> simp

/-- Membership characterization of the independently filtered program. -/
theorem mem_applyFiltersDirect (program : List ProgramEntry) (paths : List String)
    (c : Check) (fp : List String) :
    (c, fp) ∈ applyFiltersDirect program paths ↔
      c ∈ program.map wrap ∧ fp = resolve c.filter paths ∧
        (resolve c.filter paths ≠ [] ∨ c.alwaysRun = true) := by
  unfold applyFiltersDirect
  rw [List.mem_filterMap]
  constructor
  · rintro ⟨a, ha, hsome⟩
    dsimp only at hsome
    by_cases hcond : (!(resolve a.filter paths).isEmpty || a.alwaysRun) = true
    · rw [if_pos hcond] at hsome
      obtain ⟨rfl, rfl⟩ := Prod.mk.inj (Option.some.inj hsome)
      exact ⟨ha, rfl, (isEmpty_or_always _ _).mp hcond⟩
    · rw [if_neg hcond] at hsome
      cases hsome
  · rintro ⟨hmem, rfl, hcond⟩
    refine ⟨c, hmem, ?_⟩
    dsimp only
    rw [if_pos ((isEmpty_or_always _ _).mpr hcond)]

/-- The kept checks of the filtered program form a sublist of the wrapped
program: registration order is preserved. -/
theorem filterMap_keep_sublist (paths : List String) :
    ∀ (l : List Check),
      ((l.filterMap fun c =>
          let fp := resolve c.filter paths
          if !fp.isEmpty || c.alwaysRun then some (c, fp) else none).map
        Prod.fst).Sublist l := by
  intro l
  induction l with
  | nil => simp
  | cons hd tl ih =>
    rw [List.filterMap_cons]
    dsimp only
    by_cases hcond : (!(resolve hd.filter paths).isEmpty || hd.alwaysRun) = true
    · rw [if_pos hcond]
      simpa using List.Sublist.cons₂ hd ih
    · rw [if_neg hcond]
      exact List.Sublist.cons hd ih

/-! Helper lemmas about log-name sanitization. -/

/-- Inside a run, the next emitted character is alphanumeric. -/
theorem head_sanitize_true :
    ∀ (l : List Char) (c : Char) (t : List Char),
      sanitizeAux true l = c :: t → c.isAlphanum = true := by
  intro l
  induction l with
  | nil => intro c t h; simp [sanitizeAux] at h
  | cons a as ih =>
    intro c t h
    by_cases ha : a.isAlphanum
    · rw [sanitizeAux, if_pos ha] at h
      obtain ⟨rfl, -⟩ := List.cons.inj h
      exact ha
    · rw [sanitizeAux, if_neg ha, if_pos rfl] at h
      exact ih _ _ h

/-- The sanitizer never emits two adjacent underscores: every maximal run,
underscores included, collapses to a single underscore. -/
theorem sanitize_no_double_underscore :
    ∀ (l : List Char) (b : Bool), hasDoubleUnderscore (sanitizeAux b l) = false := by
  intro l
  induction l with
  | nil => intro b; rfl
  | cons a as ih =>
    intro b
    by_cases ha : a.isAlphanum
    · rw [sanitizeAux, if_pos ha]
      have hne : a ≠ '_' := by
        intro h; rw [h] at ha; exact absurd ha (by decide)
      cases hrec : sanitizeAux false as with
      | nil => rfl
      | cons d t =>
        rw [hasDoubleUnderscore]
        have hfalse : (decide (a = '_') && decide (d = '_')) = false := by
          simp [hne]
        rw [hfalse, ← hrec, ih false]
        rfl
    · rw [sanitizeAux, if_neg ha]
      cases b with
      | true => simpa using ih true
      | false =>
        simp only [if_neg, Bool.false_eq_true, not_false_eq_true, if_pos]
        cases hrec : sanitizeAux true as with
        | nil => rfl
        | cons d t =>
          rw [hasDoubleUnderscore]
          have hd : d.isAlphanum = true := head_sanitize_true as d t hrec
          have hne : d ≠ '_' := by
            intro h; rw [h] at hd; exact absurd hd (by decide)
          have hfalse : (decide ('_' = '_') && decide (d = '_')) = false := by
            simp [hne]
          rw [hfalse, ← hrec, ih true]
          rfl

end PwPresubmit

namespace PwPresubmit

/-- C1: In the execution loop, a `FAIL` outcome halts the remaining checks
exactly when `keep_going` is false, and counts already produced remain.  For
the program `[A(pass), B(fail), C(pass)]`: with `keep_going = false`, A and B
run, C is never invoked, and the counts are passed 1, failed 1, skipped 1
with overall failure; with `keep_going = true` all three run and the counts
are passed 2, failed 1, skipped 0, still with overall failure. -/
theorem claim_C1_fail_fast_vs_keep_going :
    (∀ (keepGoing : Bool) (p f : Nat) (ran : List String) (c : Check)
        (ps : List String) (rest : List (Check × List String)),
        checkResult c = Result.FAIL →
        executeChecksAux keepGoing p f ran ((c, ps) :: rest) =
          if keepGoing then
            executeChecksAux keepGoing p (f + 1) (ran ++ [c.name]) rest
          else (p, f + 1, ran ++ [c.name])) ∧
    executeChecks progABC false =
      { passed := 1, failed := 1, skipped := 1, ran := ["A", "B"] } ∧
    execSuccess (executeChecks progABC false) = false ∧
    executeChecks progABC true =
      { passed := 2, failed := 1, skipped := 0, ran := ["A", "B", "C"] } ∧
    execSuccess (executeChecks progABC true) = false := by
  refine ⟨?_, by decide, by decide, by decide, by decide⟩
  intro kg p f ran c ps rest h
  simp [executeChecksAux, h]

/-- Witness for C1: instantiates the fail step at check `B` with
`keep_going = false`, after `A` has already passed. -/
theorem claim_C1_fail_fast_vs_keep_going_witness :
    checkResult checkB = Result.FAIL ∧
    executeChecksAux false 1 0 ["A"] [(checkB, []), (checkC, [])] =
      (1, 1, ["A", "B"]) := by
  refine ⟨by decide, ?_⟩
  have h := claim_C1_fail_fast_vs_keep_going.1 false 1 0 ["A"] checkB []
    [(checkC, [])] (by decide)
  simpa [checkB] using h

/-- C2: A `CANCEL` outcome halts the loop at once for every `keep_going`
value, the cancelled check is counted as neither passed nor failed, and in a
run whose earlier checks all passed, the skipped count is exactly the
cancelled check plus the unreached checks. -/
theorem claim_C2_cancel_precedence :
    (∀ (keepGoing : Bool) (p f : Nat) (ran : List String) (c : Check)
        (ps : List String) (rest : List (Check × List String)),
        checkResult c = Result.CANCEL →
        executeChecksAux keepGoing p f ran ((c, ps) :: rest) =
          (p, f, ran ++ [c.name])) ∧
    (∀ (keepGoing : Bool) (pre : List (Check × List String)) (c : Check)
        (ps : List String) (rest : List (Check × List String)),
        (∀ d ∈ pre, checkResult d.1 = Result.PASS) →
        checkResult c = Result.CANCEL →
        executeChecks (pre ++ (c, ps) :: rest) keepGoing =
          { passed := pre.length, failed := 0, skipped := rest.length + 1,
            ran := pre.map (fun d => d.1.name) ++ [c.name] }) := by
  constructor
  · intro kg p f ran c ps rest h
    simp [executeChecksAux, h]
  · intro kg pre c ps rest hpass hc
    simp only [executeChecks, aux_pass_prefix kg c ps rest hc pre 0 0 [] hpass,
      List.length_append, List.length_cons, List.nil_append, ExecOutcome.mk.injEq]
    refine ⟨by omega, by trivial, by omega, by trivial⟩

/-- Witness for C2: a passing check `A`, then an interrupted check `K`, then
an unreached check `C`, under `keep_going = true`. -/
theorem claim_C2_cancel_precedence_witness :
    checkResult checkA = Result.PASS ∧
    checkResult checkK = Result.CANCEL ∧
    executeChecks [(checkA, []), (checkK, []), (checkC, [])] true =
      { passed := 1, failed := 0, skipped := 2, ran := ["A", "K"] } := by
  refine ⟨by decide, by decide, ?_⟩
  have h := claim_C2_cancel_precedence.2 true [(checkA, [])] checkK []
    [(checkC, [])] (by decide) (by decide)
  simpa [checkA, checkK] using h

/-- C3: A path belongs to the resolved subset exactly when its text ends
with at least one of the filter's `endswith` suffixes and fully matches no
`exclude` pattern; the default filter matches every path, and the filter
`endswith=('.h',)` over `['a.h','b.c','c.H']` matches exactly `['a.h']`. -/
theorem claim_C3_filter_semantics :
    (∀ (filt : PathFilter) (paths : List String) (p : String),
        p ∈ resolve filt paths ↔
          p ∈ paths ∧ (∃ e ∈ filt.endswith, e.data <:+ p.data) ∧
            ∀ r ∈ filt.exclude, ¬ r.fullmatch p = true) ∧
    (∀ paths, resolve defaultFilter paths = paths) ∧
    resolve { endswith := [".h"], exclude := [] } ["a.h", "b.c", "c.H"] =
      ["a.h"] := by
  refine ⟨?_, ?_, by decide⟩
  · intro filt paths p
    simp [resolve, List.mem_filter, pathMatches, strEndsWith, List.any_eq_true]
  · intro paths
    simp [resolve, defaultFilter, pathMatches, strEndsWith, List.filter_eq_self]

/-- C4: A check belongs to the executed program exactly when its resolved
subset is non-empty or it is always-run; every kept entry carries exactly the
resolved subset of its filter; registration order is preserved (the executed
program is a sublist of the wrapped program); and an always-run check with an
empty subset is kept with an empty path list. -/
theorem claim_C4_executed_program_membership :
    (∀ (program : List ProgramEntry) (paths : List String) (c : Check),
        c ∈ program.map wrap →
        ((∃ fp, (c, fp) ∈ applyFilters program paths) ↔
          (resolve c.filter paths ≠ [] ∨ c.alwaysRun = true))) ∧
    (∀ (program : List ProgramEntry) (paths : List String) (c : Check)
        (fp : List String), (c, fp) ∈ applyFilters program paths →
        fp = resolve c.filter paths ∧ c ∈ program.map wrap) ∧
    (∀ (program : List ProgramEntry) (paths : List String),
        ((applyFilters program paths).map Prod.fst).Sublist (program.map wrap)) ∧
    (∀ (program : List ProgramEntry) (paths : List String) (c : Check),
        c ∈ program.map wrap → c.alwaysRun = true →
        resolve c.filter paths = [] →
        (c, []) ∈ applyFilters program paths) := by
  refine ⟨?_, ?_, ?_, ?_⟩
  · intro program paths c hc
    rw [applyFilters_eq_direct]
    constructor
    · rintro ⟨fp, hfp⟩
      exact ((mem_applyFiltersDirect program paths c fp).mp hfp).2.2
    · intro hcond
      exact ⟨resolve c.filter paths,
        (mem_applyFiltersDirect program paths c _).mpr ⟨hc, rfl, hcond⟩⟩
  · intro program paths c fp hfp
    rw [applyFilters_eq_direct] at hfp
    obtain ⟨hmem, heq, -⟩ := (mem_applyFiltersDirect program paths c fp).mp hfp
    exact ⟨heq, hmem⟩
  · intro program paths
    rw [applyFilters_eq_direct]
    exact filterMap_keep_sublist paths (program.map wrap)
  · intro program paths c hc har hres
    rw [applyFilters_eq_direct]
    exact (mem_applyFiltersDirect program paths c []).mpr ⟨hc, hres.symm, Or.inr har⟩

/-- Witness for C4: the always-run check `A` with the empty path universe is
kept in the executed program with an empty path list. -/
theorem claim_C4_executed_program_membership_witness :
    checkA ∈ [ProgramEntry.check checkA].map wrap ∧
    checkA.alwaysRun = true ∧ resolve checkA.filter [] = [] ∧
    (checkA, []) ∈ applyFilters [ProgramEntry.check checkA] [] := by
  refine ⟨by decide, by decide, by decide, ?_⟩
  exact claim_C4_executed_program_membership.2.2.2 [ProgramEntry.check checkA]
    [] checkA (by decide) (by decide) (by decide)

/-- C5: For every executed program and keep-going flag, the counts satisfy
`passed + failed + skipped = length of the executed program` (with
`skipped` computed as the difference), and the run succeeds exactly when
nothing failed and nothing was skipped. -/
theorem claim_C5_aggregate_invariant :
    ∀ (program : List (Check × List String)) (keepGoing : Bool),
      (executeChecks program keepGoing).passed +
          (executeChecks program keepGoing).failed +
          (executeChecks program keepGoing).skipped = program.length ∧
      (execSuccess (executeChecks program keepGoing) = true ↔
        (executeChecks program keepGoing).failed = 0 ∧
          (executeChecks program keepGoing).skipped = 0) := by
  intro program kg
  obtain ⟨p', f', ran', heq, h1, h2, h3⟩ := aux_bounds kg program 0 0 []
  constructor
  · simp only [executeChecks, heq]
    omega
  · simp only [execSuccess, executeChecks, heq]
    simp [Bool.and_eq_true, beq_iff_eq]

/-- C6: Classification of one check invocation: a normal return is `PASS`; a
`PresubmitFailure` is `FAIL` with its message logged exactly when the message
string is non-empty; any other exception is `FAIL` with the full diagnostic
recorded; an interrupt during the call is `CANCEL`. -/
theorem claim_C6_outcome_classification :
    ∀ (name : String),
      callFunction .returns name = (Result.PASS, []) ∧
      (∀ (d : String) (pth : Option String),
        (callFunction (.presubmitFailure d pth) name).fst = Result.FAIL ∧
        ((callFunction (.presubmitFailure d pth) name).snd ≠ [] ↔
          presubmitFailureStr d pth ≠ "")) ∧
      (∀ detail : String,
        callFunction (.otherError detail) name =
          (Result.FAIL, ["Presubmit check " ++ name ++ " failed!\n" ++ detail])) ∧
      callFunction .interrupt name = (Result.CANCEL, []) := by
  intro name
  refine ⟨rfl, ?_, fun detail => rfl, rfl⟩
  intro d pth
  constructor
  · rfl
  · by_cases hs : presubmitFailureStr d pth = "" <;> simp [callFunction, hs]

/-- C7: Grouping checks by filter and resolving once per distinct filter
yields exactly the per-check independent resolution, and two filters with
equal `endswith` and `exclude` fields resolve to identical subsets. -/
theorem claim_C7_grouping_equivalence :
    (∀ (program : List ProgramEntry) (paths : List String),
        applyFilters program paths = applyFiltersDirect program paths) ∧
    (∀ (f₁ f₂ : PathFilter) (paths : List String),
        f₁.endswith = f₂.endswith → f₁.exclude = f₂.exclude →
        resolve f₁ paths = resolve f₂ paths) := by
  constructor
  · exact applyFilters_eq_direct
  · intro f₁ f₂ paths he hx
    have hf : f₁ = f₂ := by
      cases f₁; cases f₂; simp_all
    rw [hf]

/-- Witness for C7: two independently written but field-equal filters
resolve the same concrete path universe to the same subset. -/
theorem claim_C7_grouping_equivalence_witness :
    resolve { endswith := [".h"], exclude := [] } ["a.h", "b.c"] =
      resolve { endswith := [".h"] ++ [], exclude := [] } ["a.h", "b.c"] :=
  claim_C7_grouping_equivalence.2 { endswith := [".h"], exclude := [] }
    { endswith := [".h"] ++ [], exclude := [] } ["a.h", "b.c"]
    (by decide) (by decide)

/-- C8: Check construction through `filter_paths` succeeds exactly when the
implementation accepts exactly one argument; a valid construction stores the
given filter and always-run flag, and a validly constructed check's run-time
call plays the implementation's own behaviour (validation never recurs at run
time). -/
theorem claim_C8_construction_validation :
    ∀ (ends : List String) (excl : List Regex) (alwaysRun : Bool)
      (name : String) (paramCount : Nat) (raised : Raised),
      ((∃ c, filterPathsDecorator ends excl alwaysRun name paramCount raised =
          Except.ok c) ↔ paramCount = 1) ∧
      filterPathsDecorator ends excl alwaysRun name 1 raised =
        Except.ok { name := name,
                    filter := { endswith := ends, exclude := excl },
                    alwaysRun := alwaysRun, paramCount := 1, raised := raised } ∧
      effectiveRaised { name := name,
                        filter := { endswith := ends, exclude := excl },
                        alwaysRun := alwaysRun, paramCount := 1,
                        raised := raised } = raised := by
  intro ends excl ar name pc r
  refine ⟨?_, by simp [filterPathsDecorator], by simp [effectiveRaised]⟩
  constructor
  · rintro ⟨c, hc⟩
    by_cases h : pc = 1
    · exact h
    · simp [filterPathsDecorator, h] at hc
  · rintro rfl
    exact ⟨_, rfl⟩

/-- C9, counterexample: the code collapses runs of every non-alphanumeric
character, the underscore included (`[\W_]+`), while the claim's rule keeps
underscores; on the name `"a__b"` the code produces `"a_b"` but the claim's
rule produces `"a__b"`, so the claimed log location differs from the real
one. -/
theorem claim_C9_log_sanitization_counterexample :
    sanitizedName "a__b" = "a_b" ∧ specSanitizedName "a__b" = "a__b" ∧
    (sanitizedName "a__b" == specSanitizedName "a__b") = false ∧
    (stepLogPath "out" "a__b" ==
      "out" ++ "/" ++ specSanitizedName "a__b" ++ "/step.log") = false := by
  decide

/-- C9, amended: the log file of a check lives at
`<output_directory>/<sanitized_name>/step.log`, where sanitization collapses
every maximal run of non-alphanumeric characters — the underscore included
among the collapsed characters — into a single underscore and lower-cases
the result; `"My Check!!2"` yields `"my_check_2"`, `"a__b"` yields `"a_b"`,
and no sanitized name ever contains two adjacent underscores. -/
theorem claim_C9_log_sanitization_amended :
    (∀ (outputDirectory name : String),
        stepLogPath outputDirectory name =
          outputDirectory ++ "/" ++ sanitizedName name ++ "/step.log") ∧
    sanitizedName "My Check!!2" = "my_check_2" ∧
    sanitizedName "a__b" = "a_b" ∧
    (∀ (b : Bool) (l : List Char),
        hasDoubleUnderscore (sanitizeAux b l) = false) := by
  exact ⟨fun od n => rfl, by decide, by decide,
    fun b l => sanitize_no_double_underscore l b⟩

/-- C10: A plain callable in the program is wrapped at resolution time with
the default match-all filter and `always_run = true`, with no signature
validation; it is kept in the executed program even over an empty universe,
receiving an empty path list; and an arity mismatch surfaces only at run
time, as a `FAIL`. -/
theorem claim_C10_plain_callable_wrapping :
    ∀ (name : String) (paramCount : Nat) (raised : Raised),
      wrap (.plainCallable name paramCount raised) =
        { name := name, filter := defaultFilter, alwaysRun := true,
          paramCount := paramCount, raised := raised } ∧
      applyFilters [.plainCallable name paramCount raised] [] =
        [(wrap (.plainCallable name paramCount raised), [])] ∧
      (paramCount ≠ 1 →
        checkResult (wrap (.plainCallable name paramCount raised)) =
          Result.FAIL) := by
  intro name pc r
  refine ⟨rfl, rfl, ?_⟩
  intro h
  simp [checkResult, wrap, effectiveRaised, h, callFunction]

/-- Witness for C10: a zero-parameter plain callable that would otherwise
pass is reported as a run-time `FAIL`. -/
theorem claim_C10_plain_callable_wrapping_witness :
    (0 ≠ 1) ∧
    checkResult (wrap (.plainCallable "f" 0 .returns)) = Result.FAIL :=
  ⟨by decide, (claim_C10_plain_callable_wrapping "f" 0 .returns).2.2 (by decide)⟩

end PwPresubmit
